import Mathlib

/-!
Mordor logging facility (`mordor/common/log.h`).

A shallow embedding of the logger tree declared in `log.h`.

* `boost::shared_ptr<Logger>` is a pointer: an index into a heap of `Logger`
  records (`Heap`); the null pointer is `none`.
* `boost::shared_ptr<LogSink>` is an index naming a sink; a call of the pure
  virtual `LogSink::log` is recorded as a `SinkCall`.
* Member functions whose bodies are in the header are translated line by line.
  Member functions that are only declared in the header (their bodies live in
  `log.cpp`) are modelled from the specification and marked as such.
-/

set_option autoImplicit false

namespace Mordor

/-! ## Data model -/

/-- The enumeration `Log::Level` (log.h, lines 29-37), in declaration order. -/
inductive Level where
  | FATAL
  | ERROR
  | WARNING
  | INFO
  | TRACE
  | VERBOSE
  | DEBUG
  deriving DecidableEq, Repr

/-- The integral value of each `Log::Level` enumerator: C++ numbers the
enumerators 0, 1, 2, ... in declaration order. -/
def Level.ord : Level → Nat
  | .FATAL => 0
  | .ERROR => 1
  | .WARNING => 2
  | .INFO => 3
  | .TRACE => 4
  | .VERBOSE => 5
  | .DEBUG => 6

/-- A `Logger::ptr` (`boost::shared_ptr<Logger>`): the index of a logger in the heap. -/
abbrev LoggerPtr := Nat

/-- A `LogSink::ptr` (`boost::shared_ptr<LogSink>`): the identity of a sink object. -/
abbrev SinkPtr := Nat

/-- The data members of `class Logger` (log.h, lines 152-157).
`m_children` is a `std::set` of pointers; it is kept as the list of its elements. -/
structure Logger where
  m_name : String
  m_parent : Option LoggerPtr
  m_children : List LoggerPtr
  m_level : Level
  m_sinks : List SinkPtr
  m_inheritSinks : Bool
  deriving DecidableEq, Repr

/-- The store of all `Logger` objects; `Log::m_root` is the logger at index 0. -/
abbrev Heap := List Logger

/-- The members of `struct LogStream` (log.h, lines 76-102); `text` is the content
of the `std::ostringstream` base object. -/
structure LogStream where
  text : String
  m_logger : LoggerPtr
  m_level : Level
  m_file : Option String
  m_line : Int
  deriving DecidableEq, Repr

/-! ## Member functions defined in the header -/

/-- The private constructor `LogStream(logger, level, file, line)` (lines 80-86):
the stream base is default-constructed, so the buffer is empty. -/
def LogStream.new (logger : LoggerPtr) (level : Level) (file : Option String)
    (line : Int) : LogStream :=
  { text := "", m_logger := logger, m_level := level, m_file := file, m_line := line }

/-- The copy constructor `LogStream(const LogStream &copy)` (lines 88-93): the four
members are copied, the stream base is default-constructed. -/
def LogStream.copy (copy : LogStream) : LogStream :=
  { text := "", m_logger := copy.m_logger, m_level := copy.m_level,
    m_file := copy.m_file, m_line := copy.m_line }

/-- Member `bool enabled(Log::Level level) { return m_level >= level; }` (line 121). -/
def Logger.enabled (self : Logger) (level : Level) : Bool :=
  decide (self.m_level.ord ≥ level.ord)

/-- Member `Log::Level level() const { return m_level; }` (line 123). -/
def Logger.level (self : Logger) : Level :=
  self.m_level

/-- Member `bool inheritSinks() const { return m_inheritSinks; }` (line 125). -/
def Logger.inheritSinks (self : Logger) : Bool :=
  self.m_inheritSinks

/-- Member `void inheritSinks(bool inherit) { m_inheritSinks = inherit; }` (line 126);
the setter overload of `inheritSinks`. -/
def Logger.setInheritSinks (self : Logger) (inherit : Bool) : Logger :=
  { self with m_inheritSinks := inherit }

/-- Member `void addSink(LogSink::ptr sink) { m_sinks.push_back(sink); }` (line 127). -/
def Logger.addSink (self : Logger) (sink : SinkPtr) : Logger :=
  { self with m_sinks := self.m_sinks ++ [sink] }

/-- Member `void clearSinks() { m_sinks.clear(); }` (line 128). -/
def Logger.clearSinks (self : Logger) : Logger :=
  { self with m_sinks := [] }

/-- Member `std::string name() const { return m_name; }` (line 149). -/
def Logger.name (self : Logger) : String :=
  self.m_name

/-- Member `LogStream log(Log::Level level, const char *file, int line)` (lines 130-131):
`return LogStream(shared_from_this(), level, file, line);`.  The argument `this` is
the pointer that `shared_from_this()` yields. -/
def Logger.log (this : LoggerPtr) (level : Level) (file : Option String) (line : Int) :
    LogStream :=
  LogStream.new this level file line

/-- Member `debug` (lines 134-135): `return log(Log::DEBUG, file, line);`. -/
def Logger.debug (this : LoggerPtr) (file : Option String) (line : Int) : LogStream :=
  Logger.log this Level.DEBUG file line

/-- Member `verbose` (lines 136-137): `return log(Log::VERBOSE, file, line);`. -/
def Logger.verbose (this : LoggerPtr) (file : Option String) (line : Int) : LogStream :=
  Logger.log this Level.VERBOSE file line

/-- Member `trace` (lines 138-139): `return log(Log::TRACE, file, line);`. -/
def Logger.trace (this : LoggerPtr) (file : Option String) (line : Int) : LogStream :=
  Logger.log this Level.TRACE file line

/-- Member `info` (lines 140-141): `return log(Log::INFO, file, line);`. -/
def Logger.info (this : LoggerPtr) (file : Option String) (line : Int) : LogStream :=
  Logger.log this Level.INFO file line

/-- Member `warning` (lines 142-143): `return log(Log::WARNING, file, line);`. -/
def Logger.warning (this : LoggerPtr) (file : Option String) (line : Int) : LogStream :=
  Logger.log this Level.WARNING file line

/-- Member `error` (lines 144-145): `return log(Log::ERROR, file, line);`. -/
def Logger.error (this : LoggerPtr) (file : Option String) (line : Int) : LogStream :=
  Logger.log this Level.ERROR file line

/-- Member `fatal` (lines 146-147): `return log(Log::FATAL, file, line);`. -/
def Logger.fatal (this : LoggerPtr) (file : Option String) (line : Int) : LogStream :=
  Logger.log this Level.FATAL file line

/-! ## Member functions declared in the header, defined in `log.cpp` -/

/-- The arguments of one call of the pure virtual `LogSink::log` (lines 63-65),
together with the sink it is made on. -/
structure SinkCall where
  sink : SinkPtr
  logger : String
  thread : Nat
  fiber : Nat
  level : Level
  str : String
  file : Option String
  line : Int
  deriving DecidableEq, Repr

/-- Modelled from the spec: the body of `Logger::log(level, str, file, line)` is not
in the header.  This is the sink resolution of section 4.4: this logger's own sinks
first; if its `inheritSinks` flag is true, continue with the parent in the same way,
so the climb stops after the first logger whose flag is false (its own sinks
included).  `fuel` bounds the number of loggers visited. -/
def effectiveSinks : Nat → Heap → LoggerPtr → List SinkPtr
  | 0, _, _ => []
  | fuel + 1, h, p =>
    match h[p]? with
    | none => []
    | some lg =>
      lg.m_sinks ++
        (if lg.m_inheritSinks then
          match lg.m_parent with
          | none => []
          | some q => effectiveSinks fuel h q
        else [])

/-- Modelled from the spec: the body of `Logger::log(level, str, file, line)`
(declared on line 132) is not in the header.  Section 4.4: if `!enabled(level)` it
is a no-op; otherwise every sink of the effective sink set receives the same
`(name, threadId, fiberId, level, text, file, line)` tuple, in resolution order.
The result is the heap afterwards and the sink calls made, in order; `thread` and
`fiber` are the identifiers the environment reports for the caller. -/
def Logger.logMessage (h : Heap) (this : LoggerPtr) (thread fiber : Nat) (level : Level)
    (str : String) (file : Option String) (line : Int) : Heap × List SinkCall :=
  match h[this]? with
  | none => (h, [])
  | some lg =>
    if !lg.enabled level then (h, [])
    else
      (h, (effectiveSinks h.length h this).map fun s =>
        { sink := s, logger := lg.name, thread := thread, fiber := fiber,
          level := level, str := str, file := file, line := line })

/-- The assignment `m_level = level` on the logger at `p`. -/
def setOwnLevel (h : Heap) (p : LoggerPtr) (level : Level) : Heap :=
  match h[p]? with
  | none => h
  | some lg => h.set p { lg with m_level := level }

/-- The children of the logger at `p` (none for a dangling pointer). -/
def childrenOf (h : Heap) (p : LoggerPtr) : List LoggerPtr :=
  match h[p]? with
  | none => []
  | some lg => lg.m_children

/-- Modelled from the spec: the body of `Logger::level(level, propagate)` is not in
the header.  The propagating case of section 4.4: set this logger's level, then
recursively do the same on every current child.  `fuel` bounds the recursion depth. -/
def levelCascade : Nat → Heap → LoggerPtr → Level → Heap
  | 0, h, p, level => setOwnLevel h p level
  | fuel + 1, h, p, level =>
    (childrenOf h p).foldl (fun acc c => levelCascade fuel acc c level)
      (setOwnLevel h p level)

/-- Modelled from the spec: the body of `Logger::level(level, propagate)` (declared
on line 122, the setter overload of `level`) is not in the header.  Section 4.4:
sets this logger's level; if `propagate`, recursively sets the same level on all
current children and their children. -/
def Logger.setLevel (h : Heap) (this : LoggerPtr) (level : Level) (propagate : Bool) :
    Heap :=
  if propagate then levelCascade h.length h this level else setOwnLevel h this level

/-- Splits a name at every dot into its segments. -/
def splitDots : List Char → List (List Char)
  | [] => [[]]
  | c :: cs =>
    if c = '.' then [] :: splitDots cs
    else
      match splitDots cs with
      | [] => [[c]]
      | s :: ss => (c :: s) :: ss

/-- The names obtained from `pre` by adding the segments one at a time. -/
def extendNames (pre : String) : List (List Char) → List String
  | [] => []
  | s :: ss => (pre ++ "." ++ String.mk s) :: extendNames (pre ++ "." ++ String.mk s) ss

/-- The logger names implied by a dotted name, outermost first: for "a.b.c" they
are "a", "a.b" and "a.b.c". -/
def ancestorNames (name : String) : List String :=
  match splitDots name.data with
  | [] => []
  | s :: ss => String.mk s :: extendNames (String.mk s) ss

/-- The first pointer among `kids` whose logger is called `name`. -/
def findChild (h : Heap) (kids : List LoggerPtr) (name : String) : Option LoggerPtr :=
  kids.find? fun c =>
    match h[c]? with
    | none => false
    | some lg => lg.m_name == name

/-- Modelled from the spec: the constructor `Logger(name, parent)` (declared on
line 118) is not in the header.  Section 3 and 4.5: a new logger has the given name
and parent, no children, no sinks, `inheritSinks` true, and takes the level its
parent has at creation time. -/
def Logger.new (name : String) (parent : LoggerPtr) (parentLevel : Level) : Logger :=
  { m_name := name, m_parent := some parent, m_children := [], m_level := parentLevel,
    m_sinks := [], m_inheritSinks := true }

/-- Modelled from the spec: the constructor `Logger()` (declared on line 117) is
not in the header.  Section 3, 4.5 and 7: the root logger has no parent, is denoted
by the empty name, and starts at the fixed baseline level WARNING. -/
def Logger.newRoot : Logger :=
  { m_name := "", m_parent := none, m_children := [], m_level := Level.WARNING,
    m_sinks := [], m_inheritSinks := true }

/-- Modelled from the spec: the registry is initialised on first use (section 3);
an empty heap is the state before first use, and the root becomes the logger at
index 0. -/
def Log.root (h : Heap) : Heap :=
  match h with
  | [] => [Logger.newRoot]
  | _ :: _ => h

/-- Links a new logger called `name` under the logger `lg` stored at `cur`; the new
logger gets the next free index `h.length`. -/
def linkChild (h : Heap) (cur : LoggerPtr) (lg : Logger) (name : String) : Heap :=
  h.set cur { lg with m_children := lg.m_children ++ [h.length] } ++
    [Logger.new name cur lg.m_level]

/-- Modelled from the spec: the walk of `Log::lookup` from the logger at `cur` along
the remaining names: reuse the child of that name when there is one, otherwise
create it and link it under its parent (section 4.5). -/
def lookupFrom : Heap → LoggerPtr → List String → Heap × LoggerPtr
  | h, cur, [] => (h, cur)
  | h, cur, n :: ns =>
    match h[cur]? with
    | none => (h, cur)
    | some lg =>
      match findChild h lg.m_children n with
      | some c => lookupFrom h c ns
      | none => lookupFrom (linkChild h cur lg n) h.length ns

/-- Modelled from the spec: the body of `Log::lookup(name)` (declared on line 39) is
not in the header.  Section 4.5 and 7: the empty name denotes the root logger;
otherwise the logger of that name is returned, created together with every missing
ancestor implied by the dotted segments. -/
def Log.lookup (h : Heap) (name : String) : Heap × LoggerPtr :=
  if name = "" then (Log.root h, 0)
  else lookupFrom (Log.root h) 0 (ancestorNames name)

/-- The logger reached from `cur` by following children along the names, without
creating anything. -/
def resolveFrom (h : Heap) : LoggerPtr → List String → Option LoggerPtr
  | cur, [] => some cur
  | cur, n :: ns =>
    match findChild h (childrenOf h cur) n with
    | none => none
    | some c => resolveFrom h c ns

/-- Tree shape of a heap: every child pointer refers to a logger allocated after
its parent, and that logger's parent pointer points back. -/
def Heap.WellFormed (h : Heap) : Prop :=
  ∀ p < h.length, ∀ c ∈ childrenOf h p,
    p < c ∧ c < h.length ∧ (h[c]?).map Logger.m_parent = some (some p)

instance (h : Heap) : Decidable h.WellFormed := by
  unfold Heap.WellFormed
  infer_instance

/-- The logger `d` is reached from `p` by `k` child links. -/
inductive ReachIn (h : Heap) : Nat → LoggerPtr → LoggerPtr → Prop where
  | here (p : LoggerPtr) : ReachIn h 0 p p
  | down {k : Nat} {p c d : LoggerPtr} :
      c ∈ childrenOf h p → ReachIn h k c d → ReachIn h (k + 1) p d

/-- The logger `d` is the logger `p` or one of its descendants. -/
def Heap.Descends (h : Heap) (p d : LoggerPtr) : Prop :=
  ∃ k, ReachIn h k p d

/-- A sample logger configured at WARNING with two sinks attached. -/
def sampleLogger : Logger :=
  { m_name := "a", m_parent := some 0, m_children := [], m_level := Level.WARNING,
    m_sinks := [7, 9], m_inheritSinks := true }

/-- The logger "a" of `sinkHeap`: level WARNING, own sink 7, inheriting. -/
def sinkLoggerA : Logger :=
  { m_name := "a", m_parent := some 0, m_children := [2], m_level := Level.WARNING,
    m_sinks := [7], m_inheritSinks := true }

/-- The logger "a.b" of `sinkHeap`: level WARNING, own sink 8, not inheriting. -/
def sinkLoggerB : Logger :=
  { m_name := "a.b", m_parent := some 1, m_children := [3], m_level := Level.WARNING,
    m_sinks := [8], m_inheritSinks := false }

/-- A heap with the chain root -> "a" -> "a.b" -> "a.b.c" and a sink on each of the
first three loggers. -/
def sinkHeap : Heap :=
  [ { m_name := "", m_parent := none, m_children := [1], m_level := Level.WARNING,
      m_sinks := [5], m_inheritSinks := true },
    sinkLoggerA,
    sinkLoggerB,
    { m_name := "a.b.c", m_parent := some 2, m_children := [], m_level := Level.INFO,
      m_sinks := [], m_inheritSinks := true } ]

/-- A logger with its level blanked out: two loggers agree on every member other
than `m_level` exactly when their images agree. -/
def Logger.withoutLevel (lg : Logger) : Logger :=
  { lg with m_level := Level.FATAL }

/-- A heap with the chain root -> "a" -> "a.b" -> "a.b.c" plus a sibling "x" of
"a", every logger at a different level. -/
def levelHeap : Heap :=
  [ { m_name := "", m_parent := none, m_children := [1, 4], m_level := Level.FATAL,
      m_sinks := [], m_inheritSinks := true },
    { m_name := "a", m_parent := some 0, m_children := [2], m_level := Level.DEBUG,
      m_sinks := [], m_inheritSinks := true },
    { m_name := "a.b", m_parent := some 1, m_children := [3], m_level := Level.INFO,
      m_sinks := [], m_inheritSinks := true },
    { m_name := "a.b.c", m_parent := some 2, m_children := [], m_level := Level.ERROR,
      m_sinks := [], m_inheritSinks := true },
    { m_name := "x", m_parent := some 0, m_children := [], m_level := Level.TRACE,
      m_sinks := [], m_inheritSinks := true } ]

/-- The heap `h2` is `h1` grown by lookups: every logger of `h1` is still there
under the same pointer with the same name, and its children list has only been
extended at the end. -/
def Heap.Extends (h1 h2 : Heap) : Prop :=
  ∀ (p : LoggerPtr) (lg : Logger), h1[p]? = some lg →
    ∃ lg2, h2[p]? = some lg2 ∧ lg2.m_name = lg.m_name ∧
      ∃ extra, lg2.m_children = lg.m_children ++ extra

/-- Every parent pointer refers to a logger allocated earlier, so a walk towards
the root visits each logger at most once. -/
def Heap.ParentsBelow (h : Heap) : Prop :=
  ∀ (p : LoggerPtr) (lg : Logger), h[p]? = some lg →
    ∀ q : LoggerPtr, lg.m_parent = some q → q < p

/-! ## State-passing form of the header's member functions -/

/-- A call of one of the public member functions of `Logger` whose body is in the
header (lines 121-131 and 149), with its arguments. -/
inductive LoggerCall where
  | enabled (level : Level)
  | level
  | inheritSinks
  | setInheritSinks (inherit : Bool)
  | addSink (sink : SinkPtr)
  | clearSinks
  | log (level : Level) (file : Option String) (line : Int)
  | name
  deriving DecidableEq, Repr

/-- The value a member function of `Logger` returns. -/
inductive LoggerResult where
  | void
  | bool (b : Bool)
  | level (l : Level)
  | string (s : String)
  | stream (s : LogStream)
  deriving DecidableEq, Repr

/-- The member functions of `Logger` in state-passing form: the object after the
call and the value returned.  A member changes only where the body in the header
assigns it: the bodies of `enabled`, `level()`, `inheritSinks()`, `name()` and
`log(level, file, line)` consist of a `return` alone. -/
def LoggerCall.run (this : LoggerPtr) (self : Logger) : LoggerCall → Logger × LoggerResult
  | .enabled lv => (self, .bool (self.enabled lv))
  | .level => (self, .level self.level)
  | .inheritSinks => (self, .bool self.inheritSinks)
  | .setInheritSinks b => (self.setInheritSinks b, .void)
  | .addSink sink => (self.addSink sink, .void)
  | .clearSinks => (self.clearSinks, .void)
  | .log lv file line => (self, .stream (Logger.log this lv file line))
  | .name => (self, .string self.name)

/-- The copy constructor in state-passing form: the argument is taken by const
reference and none of its members is assigned, so the result is the original as it
is afterwards together with the newly constructed writer. -/
def LogStream.copyConstruct (copy : LogStream) : LogStream × LogStream :=
  (copy, LogStream.copy copy)

/-- Insertion of the text `t` into the `std::ostringstream` base of a writer: the
characters are added at the end of the buffer.  `t` is the text the insertion
writes; which overload of the insertion operator a C++ expression selects for an
operand, and so what text it writes for it, is decided by the standard library and
the language dialect and is not part of this model. -/
def LogStream.append (s : LogStream) (t : String) : LogStream :=
  { s with text := s.text ++ t }

/-- Successive insertions, in order. -/
def LogStream.appendAll (s : LogStream) (ts : List String) : LogStream :=
  ts.foldl LogStream.append s

/-- The loggers of which the logger at `p` holds an owning reference.  Both
`m_parent` (line 153) and the elements of `m_children` (line 154) have the type
`Logger::ptr`, which line 115 declares as `boost::shared_ptr<Logger>`: each such
pointer shares ownership of the logger it points to. -/
def ownedBy (h : Heap) (p : LoggerPtr) : List LoggerPtr :=
  match h[p]? with
  | none => []
  | some lg => lg.m_parent.toList ++ lg.m_children

/-! ## Theorems -/

/-- C1: for every logger and level, `enabled(L)` is true exactly when the ordinal
of `L` is at most the ordinal of the configured level, where the ordinals run
FATAL = 0 < ERROR < WARNING < INFO < TRACE < VERBOSE < DEBUG = 6. -/
theorem enabled_iff_ord_le (lg : Logger) (L : Level) :
    (lg.enabled L = true ↔ L.ord ≤ lg.level.ord) ∧
    Level.FATAL.ord = 0 ∧ Level.ERROR.ord = 1 ∧ Level.WARNING.ord = 2 ∧
    Level.INFO.ord = 3 ∧ Level.TRACE.ord = 4 ∧ Level.VERBOSE.ord = 5 ∧
    Level.DEBUG.ord = 6 := by
  refine ⟨?_, rfl, rfl, rfl, rfl, rfl, rfl, rfl⟩
  simp [Logger.enabled, Logger.level]

/-- C2 as stated fails: with L1 = L2 = WARNING the hypothesis L1 <= L2 holds, yet a
logger configured at WARNING reports `enabled(WARNING)` true, not false. -/
theorem enabled_same_level_counterexample :
    Level.WARNING.ord ≤ Level.WARNING.ord ∧ sampleLogger.level = Level.WARNING ∧
    ¬ (sampleLogger.enabled Level.WARNING = false ∧
       sampleLogger.enabled Level.WARNING = true) := by
  decide

/-- C2 amended: a logger configured at L1 reports `enabled(L1)` true, and for every
L2 with the ordinal of L1 at most that of L2 it reports `enabled(L2)` false
exactly when L2 differs from L1 (that is, when L1 is strictly more severe). -/
theorem enabled_strictly_less_severe (lg : Logger) (L1 L2 : Level)
    (hcfg : lg.level = L1) (hle : L1.ord ≤ L2.ord) :
    lg.enabled L1 = true ∧ (lg.enabled L2 = false ↔ L1.ord < L2.ord) ∧
    (L1.ord < L2.ord ↔ L1 ≠ L2) := by
  subst hcfg
  refine ⟨by simp [Logger.enabled, Logger.level], ?_, ?_⟩
  · simp [Logger.enabled, Logger.level]
  · constructor
    · intro hlt heq
      rw [heq] at hlt
      exact Nat.lt_irrefl _ hlt
    · intro hne
      rcases Nat.lt_or_eq_of_le hle with hlt | heq
      · exact hlt
      · exfalso
        apply hne
        revert heq
        cases lg.level <;> cases L2 <;> simp [Level.ord]

/-- Witness for C2 amended: a logger at WARNING enables WARNING and not INFO. -/
theorem enabled_strictly_less_severe_witness :
    sampleLogger.enabled Level.WARNING = true ∧
    (sampleLogger.enabled Level.INFO = false ↔ Level.WARNING.ord < Level.INFO.ord) ∧
    (Level.WARNING.ord < Level.INFO.ord ↔ Level.WARNING ≠ Level.INFO) :=
  enabled_strictly_less_severe sampleLogger Level.WARNING Level.INFO rfl (by decide)

/-- C7: `addSink(s)` appends `s` at the end of the own sink list: the list afterwards
is the prior list followed by `s`, every earlier entry keeps its position, the
length grows by exactly one, and the number of entries equal to `s` grows by one
even when `s` was already present (no de-duplication). -/
theorem addSink_appends (lg : Logger) (s : SinkPtr) :
    (lg.addSink s).m_sinks = lg.m_sinks ++ [s] ∧
    (∀ i, i < lg.m_sinks.length → (lg.addSink s).m_sinks[i]? = lg.m_sinks[i]?) ∧
    (lg.addSink s).m_sinks[lg.m_sinks.length]? = some s ∧
    (lg.addSink s).m_sinks.length = lg.m_sinks.length + 1 ∧
    (lg.addSink s).m_sinks.count s = lg.m_sinks.count s + 1 := by
  refine ⟨rfl, ?_, ?_, ?_, ?_⟩
  · intro i hi
    simp [Logger.addSink, List.getElem?_append_left hi]
  · simp [Logger.addSink]
  · simp [Logger.addSink]
  · simp [Logger.addSink]

/-- C8: `clearSinks()` leaves the own sink list empty whatever it held, clearing
twice equals clearing once, and a following `addSink(s)` yields the list `[s]`. -/
theorem clearSinks_empties (lg : Logger) (s : SinkPtr) :
    lg.clearSinks.m_sinks = [] ∧
    lg.clearSinks.clearSinks = lg.clearSinks ∧
    (lg.clearSinks.addSink s).m_sinks = [s] := by
  refine ⟨rfl, rfl, rfl⟩

/-- C9: after `inheritSinks(b)` the getter `inheritSinks()` returns `b`, and of two
successive sets the last one wins. -/
theorem inheritSinks_roundtrip (lg : Logger) (b b2 : Bool) :
    (lg.setInheritSinks b).inheritSinks = b ∧
    ((lg.setInheritSinks b).setInheritSinks b2).inheritSinks = b2 ∧
    (lg.setInheritSinks b).setInheritSinks b2 = lg.setInheritSinks b2 := by
  refine ⟨rfl, rfl, rfl⟩

/-- C10: each of `debug`, `verbose`, `trace`, `info`, `warning`, `error` and `fatal`
returns exactly the writer that `log` returns at DEBUG, VERBOSE, TRACE, INFO,
WARNING, ERROR and FATAL respectively, and that writer is bound to the same logger,
file and line and carries that level; handing it back through the copy constructor
yields the same writer. -/
theorem convenience_writers (this : LoggerPtr) (file : Option String) (line : Int) :
    (Logger.debug this file line = Logger.log this Level.DEBUG file line ∧
     Logger.verbose this file line = Logger.log this Level.VERBOSE file line ∧
     Logger.trace this file line = Logger.log this Level.TRACE file line ∧
     Logger.info this file line = Logger.log this Level.INFO file line ∧
     Logger.warning this file line = Logger.log this Level.WARNING file line ∧
     Logger.error this file line = Logger.log this Level.ERROR file line ∧
     Logger.fatal this file line = Logger.log this Level.FATAL file line) ∧
    (∀ L : Level, (Logger.log this L file line).m_logger = this ∧
      (Logger.log this L file line).m_level = L ∧
      (Logger.log this L file line).m_file = file ∧
      (Logger.log this L file line).m_line = line ∧
      LogStream.copy (Logger.log this L file line) = Logger.log this L file line) ∧
    ((Logger.debug this file line).m_level = Level.DEBUG ∧
     (Logger.verbose this file line).m_level = Level.VERBOSE ∧
     (Logger.trace this file line).m_level = Level.TRACE ∧
     (Logger.info this file line).m_level = Level.INFO ∧
     (Logger.warning this file line).m_level = Level.WARNING ∧
     (Logger.error this file line).m_level = Level.ERROR ∧
     (Logger.fatal this file line).m_level = Level.FATAL) := by
  refine ⟨⟨rfl, rfl, rfl, rfl, rfl, rfl, rfl⟩, ?_, ⟨rfl, rfl, rfl, rfl, rfl, rfl, rfl⟩⟩
  intro L
  exact ⟨rfl, rfl, rfl, rfl, rfl⟩

/-- C3: `log(level, text, file, line)` on a logger for which `enabled(level)` is
false makes no sink call at all and returns the heap unchanged, whatever the level,
the text and the sinks and flags of the logger and of its ancestors. -/
theorem logMessage_disabled_noop (h : Heap) (this : LoggerPtr) (lg : Logger)
    (thread fiber : Nat) (level : Level) (str : String) (file : Option String)
    (line : Int) (hthis : h[this]? = some lg) (hoff : lg.enabled level = false) :
    Logger.logMessage h this thread fiber level str file line = (h, []) := by
  simp [Logger.logMessage, hthis, hoff]

/-- Witness for C3: in `sinkHeap` the logger "a" (level WARNING, own sink 7, root
sink 5 inherited) makes no sink call for a DEBUG message. -/
theorem logMessage_disabled_noop_witness :
    sinkHeap[1]? = some sinkLoggerA ∧ sinkLoggerA.enabled Level.DEBUG = false ∧
    Logger.logMessage sinkHeap 1 11 22 Level.DEBUG "msg" (some "f.cpp") 3 = (sinkHeap, []) :=
  ⟨rfl, rfl, logMessage_disabled_noop sinkHeap 1 sinkLoggerA 11 22 Level.DEBUG "msg"
    (some "f.cpp") 3 rfl rfl⟩

/-- C4: for a logger whose `inheritSinks` flag is false, an enabled
`log(level, text, ...)` calls exactly the logger's own sinks, in order, each with the
same tuple, and no sink is reached through an ancestor whatever the rest of the heap
holds; with an empty own sink list no sink call is made, and the call still returns
normally with the heap unchanged. -/
theorem logMessage_no_inherit_own_only (h : Heap) (this : LoggerPtr) (lg : Logger)
    (thread fiber : Nat) (level : Level) (str : String) (file : Option String)
    (line : Int) (hthis : h[this]? = some lg) (hflag : lg.inheritSinks = false)
    (hon : lg.enabled level = true) :
    Logger.logMessage h this thread fiber level str file line =
      (h, lg.m_sinks.map fun s =>
        { sink := s, logger := lg.name, thread := thread, fiber := fiber,
          level := level, str := str, file := file, line := line }) ∧
    ((Logger.logMessage h this thread fiber level str file line).2.map SinkCall.sink
      = lg.m_sinks) ∧
    (lg.m_sinks = [] →
      Logger.logMessage h this thread fiber level str file line = (h, [])) := by
  have hflag2 : lg.m_inheritSinks = false := hflag
  have hres : effectiveSinks h.length h this = lg.m_sinks := by
    cases h with
    | nil => simp at hthis
    | cons x xs => simp [effectiveSinks, hthis, hflag2]
  have hmain : Logger.logMessage h this thread fiber level str file line =
      (h, lg.m_sinks.map fun s =>
        { sink := s, logger := lg.name, thread := thread, fiber := fiber,
          level := level, str := str, file := file, line := line }) := by
    simp [Logger.logMessage, hthis, hon, hres]
  refine ⟨hmain, ?_, ?_⟩
  · rw [hmain]
    simp [List.map_map, Function.comp_def]
  · intro hempty
    rw [hmain, hempty]
    rfl

/-- Witness for C4: in `sinkHeap` the logger "a.b" has the flag off and own sink 8;
an ERROR message reaches sink 8 only, not sink 7 of "a" nor sink 5 of the root. -/
theorem logMessage_no_inherit_own_only_witness :
    sinkHeap[2]? = some sinkLoggerB ∧ sinkLoggerB.inheritSinks = false ∧
    sinkLoggerB.enabled Level.ERROR = true ∧
    Logger.logMessage sinkHeap 2 11 22 Level.ERROR "msg" none 0 =
      (sinkHeap, [{ sink := 8, logger := "a.b", thread := 11, fiber := 22,
                    level := Level.ERROR, str := "msg", file := none, line := 0 }]) :=
  ⟨rfl, rfl, rfl, (logMessage_no_inherit_own_only sinkHeap 2 sinkLoggerB 11 22 Level.ERROR
    "msg" none 0 rfl rfl rfl).1⟩

/-! ### Cascading a level -/

theorem getElem?_lt_of_eq_some {h : Heap} {p : LoggerPtr} {lg : Logger}
    (hp : h[p]? = some lg) : p < h.length := by
  rcases Nat.lt_or_ge p h.length with hlt | hge
  · exact hlt
  · rw [List.getElem?_eq_none hge] at hp
    cases hp

theorem childrenOf_of_withoutLevel {h h' : Heap}
    (hs : h'.map Logger.withoutLevel = h.map Logger.withoutLevel) (p : LoggerPtr) :
    childrenOf h' p = childrenOf h p := by
  have hp : (h'[p]?).map Logger.withoutLevel = (h[p]?).map Logger.withoutLevel := by
    rw [← List.getElem?_map, ← List.getElem?_map, hs]
  unfold childrenOf
  cases h1 : h'[p]? with
  | none =>
    cases h2 : h[p]? with
    | none => rfl
    | some b => rw [h1, h2] at hp; cases hp
  | some a =>
    cases h2 : h[p]? with
    | none => rw [h1, h2] at hp; cases hp
    | some b =>
      rw [h1, h2] at hp
      simp only [Option.map_some'] at hp
      have := congrArg Logger.m_children (Option.some.inj hp)
      simpa [Logger.withoutLevel] using this

theorem setOwnLevel_withoutLevel (h : Heap) (p : LoggerPtr) (L : Level) :
    (setOwnLevel h p L).map Logger.withoutLevel = h.map Logger.withoutLevel := by
  unfold setOwnLevel
  cases hp : h[p]? with
  | none => rfl
  | some lg =>
    apply List.ext_getElem?
    intro i
    simp only [List.map_set, List.getElem?_set, List.getElem?_map, List.length_map]
    by_cases hi : p = i
    · subst hi
      simp [hp, getElem?_lt_of_eq_some hp, Logger.withoutLevel]
    · simp [hi]

theorem setOwnLevel_level_self (h : Heap) (p : LoggerPtr) (L : Level) (hp : p < h.length) :
    ((setOwnLevel h p L)[p]?).map Logger.level = some L := by
  unfold setOwnLevel
  rw [List.getElem?_eq_getElem hp]
  simp [List.getElem?_set, hp, Logger.level]

theorem setOwnLevel_level_keep (h : Heap) (p q : LoggerPtr) (L : Level)
    (hq : (h[q]?).map Logger.level = some L) :
    ((setOwnLevel h p L)[q]?).map Logger.level = some L := by
  unfold setOwnLevel
  cases hp : h[p]? with
  | none => exact hq
  | some lg =>
    by_cases hpq : p = q
    · subst hpq
      simp [List.getElem?_set, getElem?_lt_of_eq_some hp, Logger.level]
    · simpa [List.getElem?_set, hpq] using hq

theorem levelCascade_withoutLevel (n : Nat) (L : Level) :
    ∀ (h : Heap) (p : LoggerPtr),
      (levelCascade n h p L).map Logger.withoutLevel = h.map Logger.withoutLevel := by
  induction n with
  | zero => intro h p; exact setOwnLevel_withoutLevel h p L
  | succ n ih =>
    intro h p
    have hfold : ∀ (cs : List LoggerPtr) (acc : Heap),
        acc.map Logger.withoutLevel = h.map Logger.withoutLevel →
        (cs.foldl (fun a c => levelCascade n a c L) acc).map Logger.withoutLevel
          = h.map Logger.withoutLevel := by
      intro cs
      induction cs with
      | nil => intro acc hacc; exact hacc
      | cons c cs ihc =>
        intro acc hacc
        rw [List.foldl_cons]
        exact ihc _ ((ih acc c).trans hacc)
    exact hfold _ _ (setOwnLevel_withoutLevel h p L)

theorem levelCascade_level_keep (n : Nat) (L : Level) :
    ∀ (h : Heap) (p q : LoggerPtr), (h[q]?).map Logger.level = some L →
      ((levelCascade n h p L)[q]?).map Logger.level = some L := by
  induction n with
  | zero => intro h p q hq; exact setOwnLevel_level_keep h p q L hq
  | succ n ih =>
    intro h p q hq
    have hfold : ∀ (cs : List LoggerPtr) (acc : Heap),
        (acc[q]?).map Logger.level = some L →
        ((cs.foldl (fun a c => levelCascade n a c L) acc)[q]?).map Logger.level
          = some L := by
      intro cs
      induction cs with
      | nil => intro acc hacc; exact hacc
      | cons c cs ihc =>
        intro acc hacc
        rw [List.foldl_cons]
        exact ihc _ (ih acc c q hacc)
    exact hfold _ _ (setOwnLevel_level_keep h p q L hq)

theorem reachIn_of_withoutLevel {h h' : Heap}
    (hs : h'.map Logger.withoutLevel = h.map Logger.withoutLevel)
    {k : Nat} {p d : LoggerPtr} (hr : ReachIn h k p d) : ReachIn h' k p d := by
  induction hr with
  | here p => exact ReachIn.here p
  | down hc _ ih =>
    refine ReachIn.down ?_ ih
    rw [childrenOf_of_withoutLevel hs]
    exact hc

theorem levelCascade_reaches (L : Level) (d : LoggerPtr) (n : Nat) :
    ∀ (h : Heap) (p : LoggerPtr) (k : Nat), ReachIn h k p d → k ≤ n → d < h.length →
      ((levelCascade n h p L)[d]?).map Logger.level = some L := by
  induction n with
  | zero =>
    intro h p k hr hk hd
    cases hr with
    | here => exact setOwnLevel_level_self h d L hd
    | down _ _ => omega
  | succ n ih =>
    intro h p k hr hk hd
    have hkeep : ∀ (cs : List LoggerPtr) (acc : Heap),
        (acc[d]?).map Logger.level = some L →
        ((cs.foldl (fun a c => levelCascade n a c L) acc)[d]?).map Logger.level
          = some L := by
      intro cs
      induction cs with
      | nil => intro acc hacc; exact hacc
      | cons c cs ihc =>
        intro acc hacc
        rw [List.foldl_cons]
        exact ihc _ (levelCascade_level_keep n L acc c d hacc)
    cases hr with
    | here => exact hkeep _ _ (setOwnLevel_level_self h d L hd)
    | @down k1 _ c _ hc hrest =>
      have hfold : ∀ (cs : List LoggerPtr) (acc : Heap),
          acc.map Logger.withoutLevel = h.map Logger.withoutLevel → c ∈ cs →
          ((cs.foldl (fun a x => levelCascade n a x L) acc)[d]?).map Logger.level
            = some L := by
        intro cs
        induction cs with
        | nil => intro acc _ hmem; cases hmem
        | cons x xs ihx =>
          intro acc hacc hmem
          rw [List.foldl_cons]
          rcases List.mem_cons.mp hmem with heq | hin
          · subst heq
            apply hkeep
            have hlen : acc.length = h.length := by
              have := congrArg List.length hacc
              simpa using this
            exact ih acc c k1 (reachIn_of_withoutLevel hacc hrest) (by omega)
              (by rw [hlen]; exact hd)
          · exact ihx _ ((levelCascade_withoutLevel n L acc x).trans hacc) hin
      exact hfold _ _ (setOwnLevel_withoutLevel h p L) hc

theorem reachIn_depth {h : Heap} (hwf : h.WellFormed) {k p d : Nat}
    (hr : ReachIn h k p d) (hp : p < h.length) : p + k ≤ d ∧ d < h.length := by
  induction hr with
  | here p => exact ⟨Nat.le_refl _, hp⟩
  | @down k p c d hc _ ih =>
    obtain ⟨h1, h2, _⟩ := hwf p hp c hc
    obtain ⟨h3, h4⟩ := ih h2
    refine ⟨?_, h4⟩
    have h5 : p + 1 ≤ c := h1
    calc p + (k + 1) = (p + 1) + k := by ring
      _ ≤ c + k := Nat.add_le_add_right h5 k
      _ ≤ d := h3

/-- C5: on a tree-shaped heap, `level(L, true)` leaves the logger itself and every
current descendant (children, their children, and so on) at level `L`, whatever
level each of them had before; nothing but levels changes: every logger keeps its
name, parent, children, sinks and flag. -/
theorem setLevel_propagates (h : Heap) (this d : LoggerPtr) (L : Level)
    (hwf : h.WellFormed) (hthis : this < h.length) (hdesc : h.Descends this d) :
    ((Logger.setLevel h this L true)[d]?).map Logger.level = some L ∧
    (Logger.setLevel h this L true).map Logger.withoutLevel
      = h.map Logger.withoutLevel := by
  obtain ⟨k, hr⟩ := hdesc
  obtain ⟨hk, hd⟩ := reachIn_depth hwf hr hthis
  have hk2 : k ≤ h.length := Nat.le_trans (Nat.le_add_left k this) (Nat.le_of_lt (Nat.lt_of_le_of_lt hk hd))
  refine ⟨?_, ?_⟩
  · simp only [Logger.setLevel, if_true]
    exact levelCascade_reaches L d h.length h this k hr hk2 hd
  · simp only [Logger.setLevel, if_true]
    exact levelCascade_withoutLevel h.length L h this

/-- Witness for C5: in `levelHeap` (a at DEBUG, a.b at INFO, a.b.c at ERROR) setting
WARNING on "a" leaves "a.b.c", two links below, at WARNING. -/
theorem setLevel_propagates_witness :
    levelHeap.WellFormed ∧ 1 < levelHeap.length ∧ levelHeap.Descends 1 3 ∧
    ((Logger.setLevel levelHeap 1 Level.WARNING true)[3]?).map Logger.level
      = some Level.WARNING :=
  ⟨by decide, by decide,
    ⟨2, ReachIn.down (c := 2) (by decide) (ReachIn.down (c := 3) (by decide) (ReachIn.here 3))⟩,
    (setLevel_propagates levelHeap 1 3 Level.WARNING (by decide) (by decide)
      ⟨2, ReachIn.down (c := 2) (by decide)
        (ReachIn.down (c := 3) (by decide) (ReachIn.here 3))⟩).1⟩

/-! ### Looking up loggers by name -/

theorem extends_refl (h : Heap) : h.Extends h := by
  intro p lg hp
  exact ⟨lg, hp, rfl, [], by simp⟩

theorem extends_trans {h1 h2 h3 : Heap} (h12 : h1.Extends h2) (h23 : h2.Extends h3) :
    h1.Extends h3 := by
  intro p lg hp
  obtain ⟨lg2, hp2, hn2, e2, hc2⟩ := h12 p lg hp
  obtain ⟨lg3, hp3, hn3, e3, hc3⟩ := h23 p lg2 hp2
  refine ⟨lg3, hp3, hn3.trans hn2, e2 ++ e3, ?_⟩
  rw [hc3, hc2, List.append_assoc]

theorem extends_length {h1 h2 : Heap} (hx : h1.Extends h2) : h1.length ≤ h2.length := by
  rcases Nat.lt_or_ge h2.length h1.length with hlt | hge
  · exfalso
    have hlt2 : h2.length < h1.length := hlt
    obtain ⟨lg2, hp2, _⟩ := hx h2.length _ (List.getElem?_eq_getElem hlt2)
    rw [List.getElem?_eq_none (Nat.le_refl _)] at hp2
    cases hp2
  · exact hge

theorem linkChild_get (h : Heap) (cur : LoggerPtr) (lg : Logger) (name : String)
    (hcur : h[cur]? = some lg) (p : Nat) :
    (linkChild h cur lg name)[p]? =
      if p = h.length then some (Logger.new name cur lg.m_level)
      else if p = cur then some { lg with m_children := lg.m_children ++ [h.length] }
      else h[p]? := by
  have hlt : cur < h.length := getElem?_lt_of_eq_some hcur
  unfold linkChild
  by_cases h1 : p = h.length
  · subst h1
    rw [List.getElem?_append_right (by simp)]
    simp
  · rw [if_neg h1]
    rcases Nat.lt_or_ge p h.length with h2 | h2
    · rw [List.getElem?_append_left (by simpa using h2), List.getElem?_set]
      by_cases h3 : p = cur
      · subst h3
        simp [hlt]
      · have h4 : ¬ cur = p := fun e => h3 e.symm
        simp [h3, h4]
    · have h3 : h.length < p := Nat.lt_of_le_of_ne h2 (fun e => h1 e.symm)
      have h4 : ¬ p = cur := by
        intro e
        rw [e] at h3
        exact absurd hlt (Nat.lt_asymm h3)
      rw [if_neg h4, List.getElem?_eq_none h2, List.getElem?_eq_none]
      simp
      exact h3

theorem linkChild_length (h : Heap) (cur : LoggerPtr) (lg : Logger) (name : String) :
    (linkChild h cur lg name).length = h.length + 1 := by
  simp [linkChild]

theorem linkChild_extends (h : Heap) (cur : LoggerPtr) (lg : Logger) (name : String)
    (hcur : h[cur]? = some lg) : h.Extends (linkChild h cur lg name) := by
  intro p lgp hp
  have hlt : p < h.length := getElem?_lt_of_eq_some hp
  have hne : ¬ p = h.length := Nat.ne_of_lt hlt
  rw [linkChild_get h cur lg name hcur p, if_neg hne]
  by_cases h3 : p = cur
  · subst h3
    rw [hcur] at hp
    cases hp
    exact ⟨{ lg with m_children := lg.m_children ++ [h.length] }, by simp, rfl,
      [h.length], rfl⟩
  · exact ⟨lgp, by simp [h3, hp], rfl, [], by simp⟩

theorem childrenOf_eq {h : Heap} {p : LoggerPtr} {lg : Logger} (hp : h[p]? = some lg) :
    childrenOf h p = lg.m_children := by
  simp [childrenOf, hp]

theorem childrenOf_mem_lt {h : Heap} {p c : LoggerPtr} (hc : c ∈ childrenOf h p) :
    p < h.length := by
  rcases Nat.lt_or_ge p h.length with hlt | hge
  · exact hlt
  · simp [childrenOf, List.getElem?_eq_none hge] at hc

theorem linkChild_wellFormed (h : Heap) (cur : LoggerPtr) (lg : Logger) (name : String)
    (hwf : h.WellFormed) (hcur : h[cur]? = some lg) :
    (linkChild h cur lg name).WellFormed := by
  have hlt : cur < h.length := getElem?_lt_of_eq_some hcur
  intro p hp c hc
  rw [linkChild_length] at hp ⊢
  have hget := linkChild_get h cur lg name hcur
  have hchild : childrenOf (linkChild h cur lg name) p =
      if p = h.length then [] else if p = cur then lg.m_children ++ [h.length]
      else childrenOf h p := by
    unfold childrenOf
    rw [hget p]
    by_cases h1 : p = h.length
    · simp [h1, Logger.new]
    · by_cases h2 : p = cur
      · subst h2
        simp [h1]
      · simp [h1, h2]
  rw [hchild] at hc
  by_cases h1 : p = h.length
  · simp [h1] at hc
  · rw [if_neg h1] at hc
    have hplt : p < h.length := Nat.lt_of_le_of_ne (Nat.le_of_lt_succ hp) h1
    -- a child that was already linked in `h`
    have hold : c ∈ childrenOf h p →
        p < c ∧ c < h.length + 1 ∧
          ((linkChild h cur lg name)[c]?).map Logger.m_parent = some (some p) := by
      intro hmem
      obtain ⟨a1, a2, a3⟩ := hwf p hplt c hmem
      refine ⟨a1, Nat.lt_succ_of_lt a2, ?_⟩
      rw [hget c, if_neg (Nat.ne_of_lt a2)]
      by_cases h3 : c = cur
      · subst h3
        rw [hcur] at a3
        simpa using a3
      · rw [if_neg h3]
        exact a3
    by_cases h2 : p = cur
    · rw [if_pos h2] at hc
      rcases List.mem_append.mp hc with hin | hin
      · apply hold
        rw [h2, childrenOf_eq hcur]
        exact hin
      · have hceq : c = h.length := by simpa using hin
        subst hceq
        refine ⟨hplt, Nat.lt_succ_self _, ?_⟩
        rw [hget, if_pos rfl, h2]
        rfl
    · rw [if_neg h2] at hc
      exact hold hc

theorem lookupFrom_dangling {h : Heap} {cur : LoggerPtr} (n : String) (ns : List String)
    (hcur : h[cur]? = none) : lookupFrom h cur (n :: ns) = (h, cur) := by
  simp [lookupFrom, hcur]

theorem lookupFrom_found {h : Heap} {cur c : LoggerPtr} {lg : Logger} {n : String}
    (ns : List String) (hcur : h[cur]? = some lg)
    (hf : findChild h lg.m_children n = some c) :
    lookupFrom h cur (n :: ns) = lookupFrom h c ns := by
  simp [lookupFrom, hcur, hf]

theorem lookupFrom_created {h : Heap} {cur : LoggerPtr} {lg : Logger} {n : String}
    (ns : List String) (hcur : h[cur]? = some lg)
    (hf : findChild h lg.m_children n = none) :
    lookupFrom h cur (n :: ns) = lookupFrom (linkChild h cur lg n) h.length ns := by
  simp [lookupFrom, hcur, hf]

theorem lookupFrom_extends (ns : List String) :
    ∀ (h : Heap) (cur : LoggerPtr), h.Extends (lookupFrom h cur ns).1 := by
  induction ns with
  | nil => intro h cur; exact extends_refl h
  | cons n ns ih =>
    intro h cur
    cases hcur : h[cur]? with
    | none =>
      rw [lookupFrom_dangling n ns hcur]
      exact extends_refl h
    | some lg =>
      cases hf : findChild h lg.m_children n with
      | some c =>
        rw [lookupFrom_found ns hcur hf]
        exact ih h c
      | none =>
        rw [lookupFrom_created ns hcur hf]
        exact extends_trans (linkChild_extends h cur lg n hcur) (ih _ _)

theorem findChild_spec {h : Heap} {kids : List LoggerPtr} {n : String} {c : LoggerPtr}
    (hf : findChild h kids n = some c) :
    c ∈ kids ∧ ∃ lg, h[c]? = some lg ∧ lg.m_name = n := by
  unfold findChild at hf
  refine ⟨List.mem_of_find?_eq_some hf, ?_⟩
  have hp := List.find?_some hf
  cases hc : h[c]? with
  | none => simp [hc] at hp
  | some lg =>
    refine ⟨lg, rfl, ?_⟩
    simpa [hc] using hp

theorem lookupFrom_wellFormed (ns : List String) :
    ∀ (h : Heap) (cur : LoggerPtr), h.WellFormed → (lookupFrom h cur ns).1.WellFormed := by
  induction ns with
  | nil => intro h cur hwf; exact hwf
  | cons n ns ih =>
    intro h cur hwf
    cases hcur : h[cur]? with
    | none =>
      rw [lookupFrom_dangling n ns hcur]
      exact hwf
    | some lg =>
      cases hf : findChild h lg.m_children n with
      | some c =>
        rw [lookupFrom_found ns hcur hf]
        exact ih h c hwf
      | none =>
        rw [lookupFrom_created ns hcur hf]
        exact ih _ _ (linkChild_wellFormed h cur lg n hwf hcur)

theorem findChild_stable {h h2 : Heap} (hx : h.Extends h2) {kids : List LoggerPtr}
    (hvalid : ∀ c ∈ kids, c < h.length) (n : String) :
    findChild h2 kids n = findChild h kids n := by
  unfold findChild
  induction kids with
  | nil => rfl
  | cons x xs ih =>
    have hxlt : x < h.length := hvalid x (List.mem_cons_self x xs)
    obtain ⟨lg2, hp2, hn2, _⟩ := hx x _ (List.getElem?_eq_getElem hxlt)
    have hrest := ih (fun c hc => hvalid c (List.mem_cons_of_mem x hc))
    simp only [List.find?_cons, hp2, List.getElem?_eq_getElem hxlt, hn2, hrest]

theorem findChild_append_of_some {h : Heap} {kids : List LoggerPtr} {n : String}
    {c : LoggerPtr} (hf : findChild h kids n = some c) (extra : List LoggerPtr) :
    findChild h (kids ++ extra) n = some c := by
  unfold findChild at hf ⊢
  rw [List.find?_append, hf]
  rfl

theorem wellFormed_children_lt {h : Heap} (hwf : h.WellFormed) {p : LoggerPtr} {lg : Logger}
    (hp : h[p]? = some lg) : ∀ c ∈ lg.m_children, c < h.length := by
  intro c hc
  have hmem : c ∈ childrenOf h p := by rw [childrenOf_eq hp]; exact hc
  exact (hwf p (getElem?_lt_of_eq_some hp) c hmem).2.1

/-- A child found (or just linked) under `cur` is still the one found there in any
heap grown from this one. -/
theorem findChild_after_extends {h h2 : Heap} (hwf : h.WellFormed) (hx : h.Extends h2)
    {cur c : LoggerPtr} {lg : Logger} {n : String} (hcur : h[cur]? = some lg)
    (hf : findChild h lg.m_children n = some c) :
    findChild h2 (childrenOf h2 cur) n = some c := by
  obtain ⟨lg2, hp2, _, extra, hch⟩ := hx cur lg hcur
  rw [childrenOf_eq hp2, hch]
  apply findChild_append_of_some
  rw [findChild_stable hx (wellFormed_children_lt hwf hcur)]
  exact hf

theorem findChild_linkChild (h : Heap) (hwf : h.WellFormed) (cur : LoggerPtr) (lg : Logger)
    (n : String) (hcur : h[cur]? = some lg) (hf : findChild h lg.m_children n = none) :
    findChild (linkChild h cur lg n) (lg.m_children ++ [h.length]) n = some h.length := by
  have hold : findChild (linkChild h cur lg n) lg.m_children n = none := by
    rw [findChild_stable (linkChild_extends h cur lg n hcur) (wellFormed_children_lt hwf hcur)]
    exact hf
  unfold findChild at hold ⊢
  rw [List.find?_append, hold]
  simp [linkChild_get h cur lg n hcur, Logger.new]

theorem lookupFrom_resolves (ns : List String) :
    ∀ (h : Heap) (cur : LoggerPtr), h.WellFormed → cur < h.length →
      resolveFrom (lookupFrom h cur ns).1 cur ns = some (lookupFrom h cur ns).2 := by
  induction ns with
  | nil => intro h cur _ _; rfl
  | cons n ns ih =>
    intro h cur hwf hlt
    have hcur := List.getElem?_eq_getElem hlt
    cases hf : findChild h (h[cur]).m_children n with
    | some c =>
      rw [lookupFrom_found ns hcur hf]
      have hc : c < h.length := wellFormed_children_lt hwf hcur c (findChild_spec hf).1
      unfold resolveFrom
      rw [findChild_after_extends hwf (lookupFrom_extends ns h c) hcur hf]
      exact ih h c hwf hc
    | none =>
      rw [lookupFrom_created ns hcur hf]
      have hwf1 := linkChild_wellFormed h cur _ n hwf hcur
      have hcur1 : (linkChild h cur h[cur] n)[cur]? =
          some { h[cur] with m_children := (h[cur]).m_children ++ [h.length] } := by
        rw [linkChild_get h cur _ n hcur, if_neg (Nat.ne_of_lt hlt), if_pos rfl]
      have hf1 := findChild_linkChild h hwf cur _ n hcur hf
      unfold resolveFrom
      rw [findChild_after_extends hwf1 (lookupFrom_extends ns _ h.length) hcur1 hf1]
      exact ih _ _ hwf1 (by rw [linkChild_length]; exact Nat.lt_succ_self _)

theorem lookupFrom_of_resolves (ns : List String) :
    ∀ (h : Heap) (cur r : LoggerPtr), resolveFrom h cur ns = some r →
      lookupFrom h cur ns = (h, r) := by
  induction ns with
  | nil =>
    intro h cur r hr
    simp only [resolveFrom, Option.some.injEq] at hr
    simp [lookupFrom, hr]
  | cons n ns ih =>
    intro h cur r hr
    unfold resolveFrom at hr
    cases hf : findChild h (childrenOf h cur) n with
    | none => rw [hf] at hr; cases hr
    | some c =>
      rw [hf] at hr
      cases hcur : h[cur]? with
      | none => simp [childrenOf, hcur, findChild] at hf
      | some lg =>
        rw [childrenOf_eq hcur] at hf
        rw [lookupFrom_found ns hcur hf]
        exact ih h c r hr

theorem root_of_nonempty {h : Heap} (hpos : 0 < h.length) : Log.root h = h := by
  cases h with
  | nil => simp at hpos
  | cons x xs => rfl

theorem root_nonempty (h : Heap) : 0 < (Log.root h).length := by
  cases h with
  | nil => simp [Log.root]
  | cons x xs => simp [Log.root]

theorem root_wellFormed {h : Heap} (hwf : h.WellFormed) : (Log.root h).WellFormed := by
  cases h with
  | nil =>
    show Heap.WellFormed [Logger.newRoot]
    decide
  | cons x xs => exact hwf

/-- A child found under `cur` in a tree-shaped heap is a logger of that name, linked
to `cur` in both directions and allocated after it. -/
theorem findChild_linked {h : Heap} (hwf : h.WellFormed) {cur c : LoggerPtr} {n : String}
    (hf : findChild h (childrenOf h cur) n = some c) :
    ∃ lg, h[c]? = some lg ∧ lg.name = n ∧ lg.m_parent = some cur ∧
      c ∈ childrenOf h cur ∧ cur < c := by
  obtain ⟨hmem, lg, hc, hn⟩ := findChild_spec hf
  obtain ⟨h1, _, h3⟩ := hwf cur (childrenOf_mem_lt hmem) c hmem
  refine ⟨lg, hc, hn, ?_, hmem, h1⟩
  rw [hc] at h3
  simpa using h3

theorem lookup_fixed (h : Heap) (name : String) (hwf : h.WellFormed) :
    Log.lookup (Log.lookup h name).1 name = Log.lookup h name := by
  unfold Log.lookup
  by_cases hn : name = ""
  · simp only [if_pos hn]
    rw [root_of_nonempty (root_nonempty h)]
  · simp only [if_neg hn]
    have hres := lookupFrom_resolves (ancestorNames name) (Log.root h) 0
      (root_wellFormed hwf) (root_nonempty h)
    have hlen : 0 < (lookupFrom (Log.root h) 0 (ancestorNames name)).1.length :=
      Nat.lt_of_lt_of_le (root_nonempty h)
        (extends_length (lookupFrom_extends (ancestorNames name) (Log.root h) 0))
    rw [root_of_nonempty hlen]
    exact lookupFrom_of_resolves _ _ _ _ hres

/-- C6: on a tree-shaped registry, possibly not yet initialised, a second
`lookup(name)` returns the same logger as the first and leaves the heap exactly as
the first left it (no logger is added); and after `lookup("a.b.c")` the loggers "a",
"a.b" and "a.b.c" exist as three distinct loggers, none of them the root, linked
root -> "a" -> "a.b" -> "a.b.c" through both the children sets and the parent
pointers, and `lookup("a.b")` and `lookup("a")` return the middle and the top one
without changing the heap. -/
theorem lookup_idempotent (h : Heap) (name : String) (hwf : h.WellFormed) :
    (Log.lookup (Log.lookup h name).1 name = Log.lookup h name ∧
     (Log.lookup (Log.lookup h name).1 name).1.length = (Log.lookup h name).1.length) ∧
    ∃ (pa pb : LoggerPtr) (la lb lc : Logger),
      (Log.lookup h "a.b.c").1[pa]? = some la ∧ la.name = "a" ∧
      la.m_parent = some 0 ∧ pa ∈ childrenOf (Log.lookup h "a.b.c").1 0 ∧
      (Log.lookup h "a.b.c").1[pb]? = some lb ∧ lb.name = "a.b" ∧
      lb.m_parent = some pa ∧ pb ∈ la.m_children ∧
      (Log.lookup h "a.b.c").1[(Log.lookup h "a.b.c").2]? = some lc ∧
      lc.name = "a.b.c" ∧ lc.m_parent = some pb ∧
      (Log.lookup h "a.b.c").2 ∈ lb.m_children ∧
      0 < pa ∧ pa < pb ∧ pb < (Log.lookup h "a.b.c").2 ∧
      Log.lookup (Log.lookup h "a.b.c").1 "a.b" = ((Log.lookup h "a.b.c").1, pb) ∧
      Log.lookup (Log.lookup h "a.b.c").1 "a" = ((Log.lookup h "a.b.c").1, pa) := by
  refine ⟨⟨lookup_fixed h name hwf, by rw [lookup_fixed h name hwf]⟩, ?_⟩
  have hnames : ancestorNames "a.b.c" = ["a", "a.b", "a.b.c"] := by decide
  have hnames2 : ancestorNames "a.b" = ["a", "a.b"] := by decide
  have hnames1 : ancestorNames "a" = ["a"] := by decide
  have hlk : Log.lookup h "a.b.c" = lookupFrom (Log.root h) 0 ["a", "a.b", "a.b.c"] := by
    unfold Log.lookup
    rw [if_neg (by decide), hnames]
  rw [hlk]
  generalize hr : lookupFrom (Log.root h) 0 ["a", "a.b", "a.b.c"] = r
  have hwf3 : r.1.WellFormed := by
    rw [← hr]
    exact lookupFrom_wellFormed _ _ _ (root_wellFormed hwf)
  have hpos : 0 < r.1.length := by
    rw [← hr]
    exact Nat.lt_of_lt_of_le (root_nonempty h)
      (extends_length (lookupFrom_extends _ (Log.root h) 0))
  have hres : resolveFrom r.1 0 ["a", "a.b", "a.b.c"] = some r.2 := by
    rw [← hr]
    exact lookupFrom_resolves _ _ _ (root_wellFormed hwf) (root_nonempty h)
  unfold resolveFrom at hres
  cases hfa : findChild r.1 (childrenOf r.1 0) "a" with
  | none => rw [hfa] at hres; cases hres
  | some pa =>
    rw [hfa] at hres
    unfold resolveFrom at hres
    cases hfb : findChild r.1 (childrenOf r.1 pa) "a.b" with
    | none => rw [hfb] at hres; cases hres
    | some pb =>
      rw [hfb] at hres
      unfold resolveFrom at hres
      cases hfc : findChild r.1 (childrenOf r.1 pb) "a.b.c" with
      | none => rw [hfc] at hres; cases hres
      | some pc =>
        rw [hfc] at hres
        simp only [resolveFrom, Option.some.injEq] at hres
        subst hres
        obtain ⟨la, ha1, ha2, ha3, ha4, ha5⟩ := findChild_linked hwf3 hfa
        obtain ⟨lb, hb1, hb2, hb3, hb4, hb5⟩ := findChild_linked hwf3 hfb
        obtain ⟨lc, hc1, hc2, hc3, hc4, hc5⟩ := findChild_linked hwf3 hfc
        rw [childrenOf_eq ha1] at hb4
        rw [childrenOf_eq hb1] at hc4
        refine ⟨pa, pb, la, lb, lc, ha1, ha2, ha3, ha4, hb1, hb2, hb3, hb4, hc1, hc2, hc3,
          hc4, ha5, hb5, hc5, ?_, ?_⟩
        · unfold Log.lookup
          rw [if_neg (by decide), hnames2, root_of_nonempty hpos]
          apply lookupFrom_of_resolves
          simp [resolveFrom, hfa, hfb]
        · unfold Log.lookup
          rw [if_neg (by decide), hnames1, root_of_nonempty hpos]
          apply lookupFrom_of_resolves
          simp [resolveFrom, hfa]

/-- Witness for C6: on `levelHeap`, which already holds "a", "a.b" and "a.b.c", a
second lookup of the new name "a.b.d" changes nothing. -/
theorem lookup_idempotent_witness :
    levelHeap.WellFormed ∧
    Log.lookup (Log.lookup levelHeap "a.b.d").1 "a.b.d" = Log.lookup levelHeap "a.b.d" :=
  ⟨by decide, (lookup_idempotent levelHeap "a.b.d" (by decide)).1.1⟩

/-! ### The invariants hold in every reachable registry -/

theorem lookup_wellFormed (h : Heap) (name : String) (hwf : h.WellFormed) :
    (Log.lookup h name).1.WellFormed := by
  unfold Log.lookup
  by_cases hn : name = ""
  · rw [if_pos hn]
    exact root_wellFormed hwf
  · rw [if_neg hn]
    exact lookupFrom_wellFormed _ _ _ (root_wellFormed hwf)

theorem wellFormed_of_withoutLevel {h h2 : Heap}
    (hs : h2.map Logger.withoutLevel = h.map Logger.withoutLevel) (hwf : h.WellFormed) :
    h2.WellFormed := by
  have hlen : h2.length = h.length := by
    have := congrArg List.length hs
    simpa using this
  intro p hp c hc
  rw [childrenOf_of_withoutLevel hs] at hc
  rw [hlen] at hp ⊢
  obtain ⟨a1, a2, a3⟩ := hwf p hp c hc
  refine ⟨a1, a2, ?_⟩
  have hc2 : (h2[c]?).map Logger.withoutLevel = (h[c]?).map Logger.withoutLevel := by
    rw [← List.getElem?_map, ← List.getElem?_map, hs]
  have hpar : ∀ o : Option Logger,
      o.map Logger.m_parent = (o.map Logger.withoutLevel).map Logger.m_parent := by
    intro o
    cases o <;> rfl
  rw [hpar, hc2, ← hpar]
  exact a3

theorem setLevel_wellFormed (h : Heap) (this : LoggerPtr) (L : Level) (propagate : Bool)
    (hwf : h.WellFormed) : (Logger.setLevel h this L propagate).WellFormed := by
  apply wellFormed_of_withoutLevel _ hwf
  unfold Logger.setLevel
  cases propagate
  · exact setOwnLevel_withoutLevel h this L
  · exact levelCascade_withoutLevel h.length L h this

theorem linkChild_parentsBelow (h : Heap) (cur : LoggerPtr) (lg : Logger) (name : String)
    (hpb : h.ParentsBelow) (hcur : h[cur]? = some lg) :
    (linkChild h cur lg name).ParentsBelow := by
  intro p lgp hp q hq
  rw [linkChild_get h cur lg name hcur p] at hp
  by_cases h1 : p = h.length
  · rw [if_pos h1] at hp
    cases hp
    simp only [Logger.new, Option.some.injEq] at hq
    rw [← hq, h1]
    exact getElem?_lt_of_eq_some hcur
  · rw [if_neg h1] at hp
    by_cases h2 : p = cur
    · rw [if_pos h2] at hp
      cases hp
      rw [h2]
      exact hpb cur lg hcur q hq
    · rw [if_neg h2] at hp
      exact hpb p lgp hp q hq

theorem lookupFrom_parentsBelow (ns : List String) :
    ∀ (h : Heap) (cur : LoggerPtr), h.ParentsBelow → (lookupFrom h cur ns).1.ParentsBelow := by
  induction ns with
  | nil => intro h cur hpb; exact hpb
  | cons n ns ih =>
    intro h cur hpb
    cases hcur : h[cur]? with
    | none =>
      rw [lookupFrom_dangling n ns hcur]
      exact hpb
    | some lg =>
      cases hf : findChild h lg.m_children n with
      | some c =>
        rw [lookupFrom_found ns hcur hf]
        exact ih h c hpb
      | none =>
        rw [lookupFrom_created ns hcur hf]
        exact ih _ _ (linkChild_parentsBelow h cur lg n hpb hcur)

theorem lookup_parentsBelow (h : Heap) (name : String) (hpb : h.ParentsBelow) :
    (Log.lookup h name).1.ParentsBelow := by
  have hroot : (Log.root h).ParentsBelow := by
    cases h with
    | nil =>
      intro p lg hp q hq
      cases p with
      | zero =>
        simp only [Log.root, List.getElem?_cons_zero, Option.some.injEq] at hp
        rw [← hp] at hq
        cases hq
      | succ p => simp [Log.root] at hp
    | cons x xs => exact hpb
  unfold Log.lookup
  by_cases hn : name = ""
  · rw [if_pos hn]
    exact hroot
  · rw [if_neg hn]
    exact lookupFrom_parentsBelow _ _ _ hroot

/-- The bound used by `Logger.logMessage` never cuts the climb short: when parent
pointers lead to earlier loggers, any two bounds above the starting pointer
resolve the same sinks. -/
theorem effectiveSinks_fuel_irrelevant (h : Heap) (hpb : h.ParentsBelow) (n : Nat) :
    ∀ (m p : Nat), p < n → p < m → effectiveSinks n h p = effectiveSinks m h p := by
  induction n with
  | zero => intro m p hp _; exact absurd hp (Nat.not_lt_zero p)
  | succ n ih =>
    intro m p hpn hpm
    cases m with
    | zero => exact absurd hpm (Nat.not_lt_zero p)
    | succ m =>
      unfold effectiveSinks
      cases hp : h[p]? with
      | none => rfl
      | some lg =>
        simp only
        cases lg.m_inheritSinks with
        | false => rfl
        | true =>
          cases hq : lg.m_parent with
          | none => rfl
          | some q =>
            have hqp : q < p := hpb p lg hp q hq
            simp only [if_true]
            rw [ih m q (Nat.lt_of_lt_of_le hqp (Nat.le_of_lt_succ hpn))
              (Nat.lt_of_lt_of_le hqp (Nat.le_of_lt_succ hpm))]

/-! ### Writers: construction, appending, copying and completion -/

/-- C11: `log(level, file, line)` makes no `enabled` check: for every logger, level,
file and line, whatever the logger's configured level (so also when `enabled(level)`
is false), the call returns a writer bound to that logger, level, file and line with
an empty text buffer, the same writer for every state of the logger, and the
logger's configured level, sink list and `inheritSinks` flag are as before. -/
theorem log_returns_unchecked_writer (this : LoggerPtr) (self : Logger) (level : Level)
    (file : Option String) (line : Int) :
    LoggerCall.run this self (.log level file line) =
      (self, .stream { text := "", m_logger := this, m_level := level,
                       m_file := file, m_line := line }) ∧
    (LoggerCall.run this self (.log level file line)).1.level = self.level ∧
    (LoggerCall.run this self (.log level file line)).1.m_sinks = self.m_sinks ∧
    (LoggerCall.run this self (.log level file line)).1.inheritSinks = self.inheritSinks ∧
    (∀ other : Logger, (LoggerCall.run this other (.log level file line)).2 =
      (LoggerCall.run this self (.log level file line)).2) ∧
    (Logger.log this level file line).text = "" ∧
    (Logger.log this level file line).m_logger = this ∧
    (Logger.log this level file line).m_level = level ∧
    (Logger.log this level file line).m_file = file ∧
    (Logger.log this level file line).m_line = line := by
  refine ⟨rfl, rfl, rfl, rfl, ?_, rfl, rfl, rfl, rfl, rfl⟩
  intro other
  rfl

theorem appendAll_eq (ts : List String) :
    ∀ s : LogStream, s.appendAll ts =
      { s with text := ts.foldl (fun r t => r ++ t) s.text } := by
  induction ts with
  | nil => intro s; rfl
  | cons t ts ih =>
    intro s
    have hstep : s.appendAll (t :: ts) = (s.append t).appendAll ts := rfl
    rw [hstep, ih (s.append t)]
    rfl

/-- The writers the header copies are empty: the copy constructor is private, and
the only copies are those of the return statements of `log` and of the seven
wrappers, whose operand is a newly constructed writer or such a copy. -/
theorem copied_writers_are_empty (this : LoggerPtr) (level : Level) (file : Option String)
    (line : Int) (s : LogStream) :
    (LogStream.new this level file line).text = "" ∧
    (Logger.log this level file line).text = "" ∧
    (LogStream.copy s).text = "" :=
  ⟨rfl, rfl, rfl⟩

/-- C16: the copy constructor copies the bound logger, the level, the file and the
line but not the text: whatever has been appended to the original, the copy has the
same four members and an empty buffer, and the original is as it was. -/
theorem copy_drops_text (s : LogStream) (ts : List String) :
    (LogStream.copyConstruct (s.appendAll ts)).2.m_logger = s.m_logger ∧
    (LogStream.copyConstruct (s.appendAll ts)).2.m_level = s.m_level ∧
    (LogStream.copyConstruct (s.appendAll ts)).2.m_file = s.m_file ∧
    (LogStream.copyConstruct (s.appendAll ts)).2.m_line = s.m_line ∧
    (LogStream.copyConstruct (s.appendAll ts)).2.text = "" ∧
    (LogStream.copyConstruct (s.appendAll ts)).1 = s.appendAll ts ∧
    (LogStream.copyConstruct s).2 =
      { text := "", m_logger := s.m_logger, m_level := s.m_level, m_file := s.m_file,
        m_line := s.m_line } ∧
    (LogStream.copyConstruct s).1 = s := by
  rw [appendAll_eq]
  exact ⟨rfl, rfl, rfl, rfl, rfl, rfl, rfl, rfl⟩

/-! ### Levels, ownership and frame properties -/

/-- C14: a logger configured at DEBUG reports `enabled(L)` true for every level `L`,
and `enabled` is monotone in the configured level: if the configured level of one
logger is at most that of another (the other is less or equally severe), every level
enabled at the first is enabled at the second. -/
theorem enabled_debug_and_monotone (lg lg1 lg2 : Logger) (L : Level) :
    (lg.level = Level.DEBUG → lg.enabled L = true) ∧
    (lg1.level.ord ≤ lg2.level.ord → lg1.enabled L = true → lg2.enabled L = true) := by
  constructor
  · intro hd
    have hd2 : lg.m_level = Level.DEBUG := hd
    simp only [Logger.enabled, hd2, decide_eq_true_eq]
    cases L <;> decide
  · intro hle hon
    simp only [Logger.enabled, Logger.level, decide_eq_true_eq, ge_iff_le] at hle hon ⊢
    exact Nat.le_trans hon hle

/-- Witness for C14: the sample logger moved to DEBUG enables VERBOSE, and ERROR,
enabled at the sample logger (WARNING), is enabled at its DEBUG variant. -/
theorem enabled_debug_and_monotone_witness :
    ({ sampleLogger with m_level := Level.DEBUG } : Logger).level = Level.DEBUG ∧
    ({ sampleLogger with m_level := Level.DEBUG } : Logger).enabled Level.VERBOSE = true ∧
    sampleLogger.level.ord ≤ ({ sampleLogger with m_level := Level.DEBUG } : Logger).level.ord ∧
    sampleLogger.enabled Level.ERROR = true ∧
    ({ sampleLogger with m_level := Level.DEBUG } : Logger).enabled Level.ERROR = true :=
  ⟨rfl,
    (enabled_debug_and_monotone { sampleLogger with m_level := Level.DEBUG } sampleLogger
      { sampleLogger with m_level := Level.DEBUG } Level.VERBOSE).1 rfl,
    by decide, rfl,
    (enabled_debug_and_monotone { sampleLogger with m_level := Level.DEBUG } sampleLogger
      { sampleLogger with m_level := Level.DEBUG } Level.ERROR).2 (by decide) rfl⟩

/-- C15 as stated fails: in `sinkHeap` the root owns its child "a" through
`m_children`, and "a" owns the root through `m_parent`; that owning reference does
not go from a parent to a child, and the two form an ownership cycle. -/
theorem ownership_cycle_counterexample :
    1 ∈ childrenOf sinkHeap 0 ∧ 1 ∈ ownedBy sinkHeap 0 ∧ 0 ∈ ownedBy sinkHeap 1 ∧
    0 ∉ childrenOf sinkHeap 1 := by
  decide

/-- C15 amended: the back-reference to the parent is an owning `Logger::ptr` like
the entries of `m_children`: a logger owns exactly its parent and its children, so
in a tree-shaped heap every parent owns each of its children and is owned by it in
turn, an ownership cycle between the two. -/
theorem parent_and_child_own_each_other (h : Heap) (p c q : LoggerPtr) (lg : Logger) :
    (h[p]? = some lg → (q ∈ ownedBy h p ↔ lg.m_parent = some q ∨ q ∈ lg.m_children)) ∧
    (h.WellFormed → c ∈ childrenOf h p → c ∈ ownedBy h p ∧ p ∈ ownedBy h c) := by
  constructor
  · intro hp
    simp only [ownedBy, hp, List.mem_append, Option.mem_toList, Option.mem_def]
  · intro hwf hc
    have hplt : p < h.length := childrenOf_mem_lt hc
    obtain ⟨_, hclt, hpar⟩ := hwf p hplt c hc
    constructor
    · have hp := List.getElem?_eq_getElem hplt
      rw [childrenOf_eq hp] at hc
      simp only [ownedBy, hp, List.mem_append]
      exact Or.inr hc
    · have hcg := List.getElem?_eq_getElem hclt
      rw [hcg] at hpar
      simp only [Option.map_some', Option.some.injEq] at hpar
      simp only [ownedBy, hcg, List.mem_append, Option.mem_toList, Option.mem_def]
      exact Or.inl hpar

/-- Witness for C15 amended: in `sinkHeap` the logger "a" (pointer 1) owns its
parent, the root, and it and its child "a.b" (pointer 2) own each other. -/
theorem parent_and_child_own_each_other_witness :
    sinkHeap[1]? = some sinkLoggerA ∧
    (0 ∈ ownedBy sinkHeap 1 ↔
      sinkLoggerA.m_parent = some 0 ∨ 0 ∈ sinkLoggerA.m_children) ∧
    sinkHeap.WellFormed ∧ 2 ∈ childrenOf sinkHeap 1 ∧
    2 ∈ ownedBy sinkHeap 1 ∧ 1 ∈ ownedBy sinkHeap 2 :=
  ⟨rfl, (parent_and_child_own_each_other sinkHeap 1 2 0 sinkLoggerA).1 rfl,
    by decide, by decide,
    (parent_and_child_own_each_other sinkHeap 1 2 0 sinkLoggerA).2 (by decide)
      (by decide)⟩

/-- C17: `addSink` and `clearSinks` change only the own sink list and
`inheritSinks(b)` changes only the flag: all three leave the name, the configured
level, the parent and the children as they were, so `enabled(L)` and `level()`
return the same value before and after; the getters `enabled`, `level()`,
`inheritSinks()` and `name()` leave the logger as it was. -/
theorem mutators_touch_own_field (this : LoggerPtr) (lg : Logger) (s : SinkPtr) (b : Bool)
    (L : Level) :
    (lg.addSink s = { lg with m_sinks := (lg.addSink s).m_sinks } ∧
     lg.clearSinks = { lg with m_sinks := lg.clearSinks.m_sinks } ∧
     lg.setInheritSinks b = { lg with m_inheritSinks := b }) ∧
    ((lg.addSink s).name = lg.name ∧ (lg.addSink s).m_parent = lg.m_parent ∧
     (lg.addSink s).m_children = lg.m_children ∧ (lg.addSink s).level = lg.level ∧
     (lg.addSink s).inheritSinks = lg.inheritSinks ∧
     (lg.addSink s).enabled L = lg.enabled L) ∧
    (lg.clearSinks.name = lg.name ∧ lg.clearSinks.m_parent = lg.m_parent ∧
     lg.clearSinks.m_children = lg.m_children ∧ lg.clearSinks.level = lg.level ∧
     lg.clearSinks.inheritSinks = lg.inheritSinks ∧
     lg.clearSinks.enabled L = lg.enabled L) ∧
    ((lg.setInheritSinks b).name = lg.name ∧
     (lg.setInheritSinks b).m_parent = lg.m_parent ∧
     (lg.setInheritSinks b).m_children = lg.m_children ∧
     (lg.setInheritSinks b).level = lg.level ∧
     (lg.setInheritSinks b).m_sinks = lg.m_sinks ∧
     (lg.setInheritSinks b).enabled L = lg.enabled L) ∧
    ((LoggerCall.run this lg (.addSink s)).1 = lg.addSink s ∧
     (LoggerCall.run this lg .clearSinks).1 = lg.clearSinks ∧
     (LoggerCall.run this lg (.setInheritSinks b)).1 = lg.setInheritSinks b) ∧
    ((LoggerCall.run this lg (.enabled L)) = (lg, .bool (lg.enabled L)) ∧
     (LoggerCall.run this lg .level) = (lg, .level lg.level) ∧
     (LoggerCall.run this lg .inheritSinks) = (lg, .bool lg.inheritSinks) ∧
     (LoggerCall.run this lg .name) = (lg, .string lg.name)) := by
  refine ⟨⟨rfl, rfl, rfl⟩, ⟨rfl, rfl, rfl, rfl, rfl, rfl⟩, ⟨rfl, rfl, rfl, rfl, rfl, rfl⟩,
    ⟨rfl, rfl, rfl, rfl, rfl, rfl⟩, ⟨rfl, rfl, rfl⟩, ⟨rfl, rfl, rfl, rfl⟩⟩

end Mordor
